import Mathlib

/-!
Verification of the commodities_quant analytical core against its spec.

Shallow embedding of the three core components of the repository:

* `rolling_percentile` (src/factors.py) — trailing-window percentile rank;
* the hysteresis signal state machine of `BetaStrategy.generate_signals`
  (src/strategy.py);
* the vectorized backtest pipeline of `VectorBacktester.run` and the trade
  statistics of `VectorBacktester._calc_trade_stats` (src/backtest_engine.py).

Numbers are modelled as exact rationals (`ℚ`); the Python source computes in
IEEE doubles, but every concrete input used below is far from any comparison
boundary, so the comparisons agree.  Date-indexed pandas columns are modelled
as Lean lists in date order; a pandas `NaN` entry is `Option.none`.
-/

set_option autoImplicit false

namespace CommoditiesQuant

/-! ### Signal state machine (src/strategy.py) -/

/-- Embeds the `Signal` IntEnum of src/strategy.py: SHORT = -1, FLAT = 0,
LONG = 1. -/
inductive Signal where
  | SHORT
  | FLAT
  | LONG
deriving DecidableEq, Repr

/-- Embeds the integer mapping of the `Signal` IntEnum. -/
def Signal.toInt : Signal → ℤ
  | .SHORT => -1
  | .FLAT => 0
  | .LONG => 1

/-- Embeds `BetaStrategyParams` of src/strategy.py (threshold fields, with the
source's default values; the display-only `name` string is omitted). -/
structure BetaStrategyParams where
  long_entry : ℚ := 5 / 100
  long_exit : ℚ := 30 / 100
  short_entry : ℚ := 95 / 100
  short_exit : ℚ := 70 / 100
deriving DecidableEq, Repr

/-- Embeds one iteration of the state-machine loop in
`BetaStrategy.generate_signals` (src/strategy.py lines 191-248): given the
carried position and the current percentile (`none` models a pandas NaN,
which keeps the position unchanged), produce the new position. -/
def betaStep (P : BetaStrategyParams) (position : Signal) (pct : Option ℚ) : Signal :=
  match pct with
  | none => position
  | some p =>
    match position with
    | .FLAT =>
        if p < P.long_entry then .LONG
        else if P.short_entry < p then .SHORT
        else .FLAT
    | .LONG =>
        if P.long_exit < p then
          if P.short_entry < p then .SHORT else .FLAT
        else .LONG
    | .SHORT =>
        if p < P.short_exit then
          if p < P.long_entry then .LONG else .FLAT
        else .SHORT

/-- Embeds the left-to-right scan of `BetaStrategy.generate_signals`: the
loop carries `position` across rows and appends the post-transition position
as the emitted signal of each row. -/
def runSignals (P : BetaStrategyParams) : Signal → List (Option ℚ) → List Signal
  | _, [] => []
  | position, p :: rest =>
      let position2 := betaStep P position p
      position2 :: runSignals P position2 rest

/-- Embeds `BetaStrategy.generate_signals` (src/strategy.py): the percentile
column produced by `calculate_global_percentile` is taken as the input list
(its computation from the database is I/O outside this core), the scan starts
FLAT, and the emitted signal column is returned. -/
def generate_signals (P : BetaStrategyParams) (pcts : List (Option ℚ)) : List Signal :=
  runSignals P .FLAT pcts

/-! ### Rolling percentile (src/factors.py) -/

/-- Trailing window that pandas presents to `calc_pct` at position `i` of
`series.rolling(window=w)`: the last `min (i+1) w` observations ending at
`i` inclusive. -/
def windowAt (xs : List ℚ) (w i : ℕ) : List ℚ :=
  (xs.take (i + 1)).drop (i + 1 - w)

/-- Embeds the inner closure `calc_pct` of `rolling_percentile`
(src/factors.py lines 236-241).  The guard `len(x) < window * 0.5` is the
exact rational comparison `2 * len < window` (multiplying by 0.5 is exact in
binary floating point).  `x.iloc[-1]` is the last element; `rank` counts the
window elements strictly below it. -/
def calc_pct (window : ℕ) (x : List ℚ) : Option ℚ :=
  if 2 * x.length < window then none
  else
    match x.getLast? with
    | none => none
    | some current =>
        some (if 1 < x.length
              then ((x.filter (fun v => decide (v < current))).length : ℚ) / ((x.length : ℚ) - 1)
              else 1 / 2)

/-- Embeds `rolling_percentile` (src/factors.py lines 225-243):
`series.rolling(window=w, min_periods=int(w*0.5)).apply(calc_pct)`.
Pandas emits NaN (`none`) when the window holds fewer than `min_periods`
observations and otherwise applies `calc_pct` to the window;
`int(w * 0.5)` is exactly the floor `w / 2`. -/
def rolling_percentile (xs : List ℚ) (w : ℕ) : List (Option ℚ) :=
  (List.range xs.length).map (fun i =>
    if (windowAt xs w i).length < w / 2 then none
    else calc_pct w (windowAt xs w i))

/-! ### Vectorized backtest (src/backtest_engine.py) -/

/-- Embeds `BacktestConfig` of src/backtest_engine.py with the source's
defaults (the optional `start_date`/`end_date` filters act in `prepare_data`,
before the merged table reaches `run`, and are not modelled). -/
structure BacktestConfig where
  commission_rate : ℚ := 1 / 1000
  slippage_rate : ℚ := 5 / 10000
  risk_free_rate : ℚ := 2 / 100
  trading_days_per_year : ℕ := 252
deriving Repr

/-- Three-list pointwise zip, truncating to the shortest list (the pandas
columns it models always share one index). -/
def zipWith3 {α β γ δ : Type} (f : α → β → γ → δ) : List α → List β → List γ → List δ
  | a :: as, b :: bs, c :: cs => f a b c :: zipWith3 f as bs cs
  | _, _, _ => []

/-- Embeds `df['signal'].shift(1).fillna(0)`: the first entry becomes 0 and
every later entry is the previous value of the column. -/
def shift_fill0 (xs : List ℤ) : List ℤ :=
  match xs with
  | [] => []
  | _ :: _ => 0 :: xs.dropLast

/-- Embeds `df['position'].diff().abs().fillna(0)`: entry 0 is 0 (NaN from
`diff` filled with 0) and entry `t ≥ 1` is `|position[t] - position[t-1]|`. -/
def diff_abs (xs : List ℤ) : List ℤ :=
  match xs with
  | [] => []
  | _ :: rest => 0 :: List.zipWith (fun b a => |b - a|) rest xs

/-- Running product accumulator for `cumprod1p`. -/
def cumprodAux (acc : ℚ) : List ℚ → List ℚ
  | [] => []
  | r :: rest => acc * (1 + r) :: cumprodAux (acc * (1 + r)) rest

/-- Embeds `(1 + returns).cumprod()`: entry `t` is the product of `(1 + r_s)`
over `s ≤ t`. -/
def cumprod1p (rs : List ℚ) : List ℚ :=
  cumprodAux 1 rs

/-- Running maximum accumulator for `cummax`. -/
def runmax (a : ℚ) : List ℚ → List ℚ
  | [] => []
  | x :: rest => max a x :: runmax (max a x) rest

/-- Embeds `series.cummax()`: entry `t` is the maximum of the entries up to
and including `t`. -/
def cummax (xs : List ℚ) : List ℚ :=
  match xs with
  | [] => []
  | x :: rest => x :: runmax x rest

/-- Columns computed by `VectorBacktester.run` (src/backtest_engine.py lines
191-216) on the merged price/signal table. -/
structure RunResult where
  market_return : List (Option ℚ)
  position : List ℤ
  position_change : List ℤ
  trade_cost : List ℚ
  strategy_return : List (Option ℚ)
  cumulative_market : List ℚ
  cumulative_strategy : List ℚ
  strategy_peak : List ℚ
  drawdown : List ℚ

/-- Embeds the column pipeline of `VectorBacktester.run` (src/backtest_engine.py
lines 191-216).  The source first computes
`market_return = np.log(price / price.shift(1))`, a transcendental function of
the price column evaluated in floating point; that column is therefore taken
here as the input `ret` (the per-period log returns for periods 1..n-1, the
period-0 entry being NaN because `price.shift(1)` starts with NaN).  The
price column itself is read by no later step of the pipeline, and is kept as
an argument to record exactly that.  In numpy, `position * NaN - cost` is NaN,
so a `none` market return makes the strategy return `none`; `fillna(0)` before
`cumprod` maps `none` to 0.  The source raises ValueError when the merged
table has fewer than 2 rows before computing these columns. -/
def run (cfg : BacktestConfig) (price : List ℚ) (ret : List ℚ) (signal : List ℤ) : RunResult :=
  let market_return : List (Option ℚ) := none :: ret.map some
  let position := shift_fill0 signal
  let position_change := diff_abs position
  let total_cost_rate := cfg.commission_rate + cfg.slippage_rate
  let trade_cost := position_change.map (fun (c : ℤ) => (c : ℚ) * total_cost_rate)
  let strategy_return :=
    zipWith3 (fun mr (p : ℤ) c => mr.map (fun r => (p : ℚ) * r - c)) market_return position trade_cost
  let cumulative_market := cumprod1p (market_return.map (fun o => o.getD 0))
  let cumulative_strategy := cumprod1p (strategy_return.map (fun o => o.getD 0))
  let strategy_peak := cummax cumulative_strategy
  let drawdown := List.zipWith (fun c p => c / p - 1) cumulative_strategy strategy_peak
  { market_return := market_return
    position := position
    position_change := position_change
    trade_cost := trade_cost
    strategy_return := strategy_return
    cumulative_market := cumulative_market
    cumulative_strategy := cumulative_strategy
    strategy_peak := strategy_peak
    drawdown := drawdown }

/-! ### Trade statistics (src/backtest_engine.py, `_calc_trade_stats`) -/

/-- Embeds `trade_indices`: the positions where `df['position_change'] > 0`. -/
def tradeIndices (position_change : List ℤ) : List ℕ :=
  (List.range position_change.length).filter (fun i => decide (0 < position_change.getD i 0))

/-- Embeds `df.loc[start_idx:end_idx, 'strategy_return'].sum()`: a pandas
label slice includes both endpoints, and `sum` skips NaN entries. -/
def segmentSum (sr : List (Option ℚ)) (a b : ℕ) : ℚ :=
  (((sr.drop a).take (b - a + 1)).map (fun o => o.getD 0)).sum

/-- Embeds the `trade_returns` loop of `_calc_trade_stats`: one inclusive
segment sum per consecutive pair of trade boundaries. -/
def tradeReturns (pc : List ℤ) (sr : List (Option ℚ)) : List ℚ :=
  let idxs := tradeIndices pc
  (idxs.zip idxs.tail).map (fun ab => segmentSum sr ab.1 ab.2)

/-- Return triple of `_calc_trade_stats`. -/
structure TradeStats where
  win_rate : ℚ
  profit_factor : ℚ
  avg_trade_return : ℚ
deriving DecidableEq, Repr

/-- The positive inter-boundary segments, `trade_returns[trade_returns > 0]`. -/
def posSegments (pc : List ℤ) (sr : List (Option ℚ)) : List ℚ :=
  (tradeReturns pc sr).filter (fun r => decide (0 < r))

/-- The negative inter-boundary segments, `trade_returns[trade_returns < 0]`. -/
def negSegments (pc : List ℤ) (sr : List (Option ℚ)) : List ℚ :=
  (tradeReturns pc sr).filter (fun r => decide (r < 0))

/-- Arithmetic mean as numpy's `mean`: sum divided by length. -/
def meanQ (l : List ℚ) : ℚ :=
  l.sum / (l.length : ℚ)

/-- Embeds `VectorBacktester._calc_trade_stats` (src/backtest_engine.py lines
342-378), returning `(win_rate, profit_factor, avg_trade_return)`.  With
fewer than 2 trade boundaries the source returns `(0, 0, 0)`; otherwise
`avg_loss` is `abs(mean(negative segments))` when losses exist and defaults
to `1` when none do, and `profit_factor = avg_win / avg_loss` guarded by
`avg_loss > 0`. -/
def calc_trade_stats (pc : List ℤ) (sr : List (Option ℚ)) : TradeStats :=
  let idxs := tradeIndices pc
  if idxs.length < 2 then ⟨0, 0, 0⟩
  else
    let trs := tradeReturns pc sr
    if trs = [] then ⟨0, 0, 0⟩
    else
      let wins := (posSegments pc sr).length
      let win_rate := if 0 < trs.length then (wins : ℚ) / (trs.length : ℚ) else 0
      let avg_win := if 0 < wins then meanQ (posSegments pc sr) else 0
      let losses := (negSegments pc sr).length
      let avg_loss := if 0 < losses then |meanQ (negSegments pc sr)| else 1
      let profit_factor := if 0 < avg_loss then avg_win / avg_loss else 0
      ⟨win_rate, profit_factor, meanQ trs⟩

/-! ### Helper lemmas -/

lemma windowAt_length (xs : List ℚ) (w i : ℕ) (hi : i < xs.length) :
    (windowAt xs w i).length = min (i + 1) w := by
  simp only [windowAt, List.length_drop, List.length_take]
  omega

lemma rolling_percentile_getElem (xs : List ℚ) (w i : ℕ) (hi : i < xs.length) :
    (rolling_percentile xs w)[i]? =
      some (if (windowAt xs w i).length < w / 2 then none else calc_pct w (windowAt xs w i)) := by
  rw [rolling_percentile, List.getElem?_map, List.getElem?_range hi]
  rfl

lemma rolling_percentile_length (xs : List ℚ) (w : ℕ) :
    (rolling_percentile xs w).length = xs.length := by
  simp [rolling_percentile]

lemma filter_lt_getLast_length (x : List ℚ) (c : ℚ) (hc : x.getLast? = some c) :
    (x.filter (fun v => decide (v < c))).length + 1 ≤ x.length := by
  have hne : x ≠ [] := by intro h; rw [h] at hc; exact Option.noConfusion hc
  have hgl : x.getLast hne = c := by
    have h2 := List.getLast?_eq_getLast x hne
    rw [hc] at h2
    exact (Option.some.inj h2).symm
  have hx : x.dropLast ++ [c] = x := by
    rw [← hgl]
    exact List.dropLast_append_getLast hne
  have h1 : ([c].filter (fun v => decide (v < c))).length = 0 := by simp
  have h2 : (x.dropLast.filter (fun v => decide (v < c))).length ≤ x.dropLast.length :=
    List.length_filter_le _ _
  have h3 : x.dropLast.length = x.length - 1 := List.length_dropLast x
  have h4 : 1 ≤ x.length := List.length_pos.mpr hne
  have h5 : (x.filter (fun v => decide (v < c))).length
      = (x.dropLast.filter (fun v => decide (v < c))).length
        + ([c].filter (fun v => decide (v < c))).length := by
    rw [← List.length_append, ← List.filter_append, hx]
  omega

lemma sum_neg_of_all_neg (l : List ℚ) (hall : ∀ a ∈ l, a < 0) (hne : l ≠ []) :
    l.sum < 0 := by
  induction l with
  | nil => exact absurd rfl hne
  | cons a rest ih =>
      rcases rest.eq_nil_or_concat with hrest | h2
      · subst hrest
        simpa using hall a (by simp)
      · have hsum : rest.sum < 0 := by
          apply ih (fun b hb => hall b (by simp [hb]))
          rcases h2 with ⟨_, _, rfl⟩
          simp
        have ha : a < 0 := hall a (by simp)
        simpa using add_neg ha hsum

lemma zipWith_getElem_some {α β γ : Type} (f : α → β → γ) (as : List α) (bs : List β)
    (n : ℕ) (z : γ) (h : (List.zipWith f as bs)[n]? = some z) :
    ∃ a b, as[n]? = some a ∧ bs[n]? = some b ∧ z = f a b := by
  induction as generalizing bs n with
  | nil => simp [List.zipWith] at h
  | cons a as ih =>
      cases bs with
      | nil => simp [List.zipWith] at h
      | cons b bs =>
          cases n with
          | zero =>
              refine ⟨a, b, by simp, by simp, ?_⟩
              have hz : f a b = z := by simpa [List.zipWith] using h
              exact hz.symm
          | succ n =>
              simp only [List.zipWith, List.getElem?_cons_succ] at h ⊢
              exact ih bs n h

lemma zipWith3_getElem_of {α β γ δ : Type} (f : α → β → γ → δ) (as : List α) (bs : List β)
    (cs : List γ) (n : ℕ) (a : α) (b : β) (c : γ)
    (ha : as[n]? = some a) (hb : bs[n]? = some b) (hc : cs[n]? = some c) :
    (zipWith3 f as bs cs)[n]? = some (f a b c) := by
  induction as generalizing bs cs n with
  | nil => simp at ha
  | cons x as ih =>
      cases bs with
      | nil => simp at hb
      | cons y bs =>
          cases cs with
          | nil => simp at hc
          | cons z cs =>
              cases n with
              | zero =>
                  simp only [List.getElem?_cons_zero, Option.some.injEq] at ha hb hc
                  subst ha; subst hb; subst hc
                  simp [zipWith3]
              | succ n =>
                  simp only [List.getElem?_cons_succ] at ha hb hc
                  simpa [zipWith3] using ih bs cs n ha hb hc

lemma getElem_dropLast {α : Type} (l : List α) (i : ℕ) (hi : i + 1 < l.length) :
    l.dropLast[i]? = l[i]? := by
  rw [List.dropLast_eq_take, List.getElem?_take, if_pos (by omega)]

lemma shift_fill0_length (xs : List ℤ) : (shift_fill0 xs).length = xs.length := by
  cases xs <;> simp [shift_fill0]

lemma shift_fill0_head (xs : List ℤ) (h : xs ≠ []) : (shift_fill0 xs)[0]? = some 0 := by
  cases xs with
  | nil => exact absurd rfl h
  | cons a l => simp [shift_fill0]

lemma shift_fill0_succ (xs : List ℤ) (t : ℕ) (h1 : 1 ≤ t) (h2 : t < xs.length) :
    (shift_fill0 xs)[t]? = xs[t - 1]? := by
  cases xs with
  | nil => simp at h2
  | cons a l =>
      obtain ⟨s, rfl⟩ : ∃ s, t = s + 1 := ⟨t - 1, by omega⟩
      show ((0 : ℤ) :: (a :: l).dropLast)[s + 1]? = (a :: l)[s]?
      rw [List.getElem?_cons_succ]
      exact getElem_dropLast _ s (by simpa using h2)

lemma diff_abs_succ (xs : List ℤ) (t : ℕ) (a b : ℤ) (h1 : 1 ≤ t)
    (ha : xs[t]? = some a) (hb : xs[t - 1]? = some b) :
    (diff_abs xs)[t]? = some |a - b| := by
  cases xs with
  | nil => simp at ha
  | cons x rest =>
      obtain ⟨s, rfl⟩ : ∃ s, t = s + 1 := ⟨t - 1, by omega⟩
      simp only [Nat.add_sub_cancel] at hb
      show ((0 : ℤ) :: List.zipWith (fun b a => |b - a|) rest (x :: rest))[s + 1]? = some |a - b|
      rw [List.getElem?_cons_succ, List.getElem?_zipWith]
      rw [List.getElem?_cons_succ] at ha
      rw [ha, hb]

lemma runmax_spec (l : List ℚ) (a : ℚ) (t : ℕ) (x : ℚ)
    (h : (runmax a l)[t]? = some x) :
    a ≤ x ∧ ∃ y, l[t]? = some y ∧ y ≤ x := by
  induction l generalizing a t with
  | nil => simp [runmax] at h
  | cons b rest ih =>
      cases t with
      | zero =>
          have hx : max a b = x := by simpa [runmax] using h
          exact ⟨hx ▸ le_max_left a b, b, by simp, hx ▸ le_max_right a b⟩
      | succ t =>
          simp only [runmax, List.getElem?_cons_succ] at h
          obtain ⟨h1, y, hy, hyx⟩ := ih (max a b) t h
          exact ⟨le_trans (le_max_left a b) h1, y, by simpa using hy, hyx⟩

lemma cummax_spec (x0 : ℚ) (rest : List ℚ) (t : ℕ) (x : ℚ)
    (h : (cummax (x0 :: rest))[t]? = some x) :
    x0 ≤ x ∧ ∃ y, (x0 :: rest)[t]? = some y ∧ y ≤ x := by
  cases t with
  | zero =>
      have hx : x0 = x := by simpa [cummax] using h
      exact ⟨hx.le, x0, by simp, hx.le⟩
  | succ t =>
      simp only [cummax, List.getElem?_cons_succ] at h
      obtain ⟨h1, y, hy, hyx⟩ := runmax_spec rest x0 t x h
      exact ⟨h1, y, by simpa using hy, hyx⟩

/-! ### Claim C2 — hysteresis concrete scenario B -/

/-- Claim C2, counterexample: with thresholds long_entry = 0.05,
long_exit = 0.30, short_entry = 0.95, short_exit = 0.70, the score sequence
[0.03, 0.20, 0.40, 0.96, 0.72, 0.10] starting FLAT does NOT yield the claimed
signal sequence [LONG, LONG, LONG, SHORT, SHORT, LONG]. -/
theorem scenarioB_claimed_sequence_false :
    generate_signals ⟨5/100, 30/100, 95/100, 70/100⟩
        [some (3/100), some (20/100), some (40/100), some (96/100), some (72/100), some (10/100)]
      ≠ [Signal.LONG, Signal.LONG, Signal.LONG, Signal.SHORT, Signal.SHORT, Signal.LONG] := by
  norm_num [generate_signals, runSignals, betaStep]
  decide

/-- Claim C2, amended: on the scenario-B scores the state machine emits
[LONG, LONG, FLAT, SHORT, SHORT, FLAT] — the score 0.40 exceeds
long_exit = 0.30 and closes the long to FLAT, and the final score 0.10 is
below short_exit = 0.70 but not below long_entry = 0.05, so the short closes
to FLAT rather than reversing to LONG. -/
theorem scenarioB_code_output :
    generate_signals ⟨5/100, 30/100, 95/100, 70/100⟩
        [some (3/100), some (20/100), some (40/100), some (96/100), some (72/100), some (10/100)]
      = [Signal.LONG, Signal.LONG, Signal.FLAT, Signal.SHORT, Signal.SHORT, Signal.FLAT] := by
  norm_num [generate_signals, runSignals, betaStep]

/-! ### Claim C9 — hysteresis idempotence inside the entry band -/

/-- Claim C9: for every constant score sequence whose value lies strictly
between long_entry and short_entry, and any length, the state machine started
FLAT stays FLAT at every step. -/
theorem hysteresis_constant_interior_stays_flat (P : BetaStrategyParams) (p : ℚ) (n : ℕ)
    (h1 : P.long_entry < p) (h2 : p < P.short_entry) :
    runSignals P Signal.FLAT (List.replicate n (some p)) = List.replicate n Signal.FLAT := by
  have hstep : betaStep P Signal.FLAT (some p) = Signal.FLAT := by
    simp only [betaStep]
    rw [if_neg (not_lt.2 h1.le), if_neg (not_lt.2 h2.le)]
  induction n with
  | zero => simp [runSignals]
  | succ n ih => simp [List.replicate_succ, runSignals, hstep, ih]

/-- Witness for C9 at the default thresholds, score 0.5, length 3. -/
theorem hysteresis_constant_interior_stays_flat_witness :
    (5:ℚ)/100 < 1/2 ∧ (1:ℚ)/2 < 95/100 ∧
    runSignals ⟨5/100, 30/100, 95/100, 70/100⟩ Signal.FLAT (List.replicate 3 (some (1/2)))
      = List.replicate 3 Signal.FLAT :=
  ⟨by norm_num, by norm_num,
    hysteresis_constant_interior_stays_flat ⟨5/100, 30/100, 95/100, 70/100⟩ (1/2) 3
      (by norm_num) (by norm_num)⟩

/-! ### Claim C6 — behaviour for window < 2 and for empty input -/

/-- Claim C6, counterexample: calling the percentile computation with window
length 1 (< 2) does not fail with a configuration error — it silently returns
the value 0.5 at every position (`min_periods` becomes `int(0.5) = 0` and both
guards are vacuous): the source contains no window validation at all. -/
theorem window_one_silently_returns_values :
    rolling_percentile [1, 2] 1 = [some (1/2), some (1/2)] := by
  norm_num [rolling_percentile, windowAt, calc_pct, List.range_succ]

/-- Claim C6, amended: a window length below 2 is not rejected — window = 1
silently yields 0.5 at every index — while an entirely empty input series
yields an empty output without error. -/
theorem window_below_two_not_rejected (xs : List ℚ) (i : ℕ) (hi : i < xs.length) :
    (rolling_percentile xs 1)[i]? = some (some (1/2)) ∧
    ∀ w : ℕ, rolling_percentile ([] : List ℚ) w = [] := by
  constructor
  · have hlen : (windowAt xs 1 i).length = 1 := by
      rw [windowAt_length xs 1 i hi]; omega
    have hne : windowAt xs 1 i ≠ [] := by
      intro h; rw [h] at hlen; simp at hlen
    obtain ⟨c, hc⟩ := Option.isSome_iff_exists.mp (List.getLast?_isSome.mpr hne)
    rw [rolling_percentile_getElem xs 1 i hi]
    rw [if_neg (by omega)]
    rw [calc_pct, if_neg (by omega), hc]
    simp [hlen]
  · intro w; rfl

/-- Witness for the amended C6 at the one-element series [7], index 0. -/
theorem window_below_two_not_rejected_witness :
    0 < [(7:ℚ)].length ∧ (rolling_percentile [(7:ℚ)] 1)[0]? = some (some (1/2)) :=
  ⟨by norm_num, (window_below_two_not_rejected [(7:ℚ)] 0 (by norm_num)).1⟩

/-! ### Claim C5 — profit factor in the trade statistics -/

/-- Claim C5, counterexample: a backtest whose single inter-boundary segment
is profitable (no losing segments) has profit_factor equal to that segment's
mean return 97/1000, not 1 — when there are no losses the code divides by the
default `avg_loss = 1`. -/
theorem profit_factor_without_losses_ne_one :
    (negSegments (run {} [100, 100, 100, 100] [1/10, 0, 0] [1, 1, 0, 1]).position_change
        (run {} [100, 100, 100, 100] [1/10, 0, 0] [1, 1, 0, 1]).strategy_return).length = 0 ∧
    (calc_trade_stats (run {} [100, 100, 100, 100] [1/10, 0, 0] [1, 1, 0, 1]).position_change
        (run {} [100, 100, 100, 100] [1/10, 0, 0] [1, 1, 0, 1]).strategy_return).profit_factor
      ≠ 1 := by
  constructor <;>
    norm_num [run, calc_trade_stats, tradeIndices, tradeReturns, posSegments, negSegments,
      segmentSum, meanQ, shift_fill0, diff_abs, zipWith3, List.range_succ]

/-! ### Claim C3 — null exactly below the ceil(W/2) cutoff -/

/-- Claim C3: for every input series and window length W ≥ 2, the
rolling-percentile output at a position `i` of the series is null exactly when
the trailing window ending at `i` (which holds `min (i+1) W` observations)
holds fewer than ⌈W/2⌉ = (W+1)/2 observations; the combination of
`min_periods = int(W*0.5)` and the inner guard `len(x) < W*0.5` realises this
cutoff for even and odd W alike. -/
theorem percentile_null_iff_below_half_window (xs : List ℚ) (w i : ℕ)
    (hw : 2 ≤ w) (hi : i < xs.length) :
    (rolling_percentile xs w)[i]? = some none ↔ min (i + 1) w < (w + 1) / 2 := by
  rw [rolling_percentile_getElem xs w i hi]
  have hlen := windowAt_length xs w i hi
  have hpos : 1 ≤ (windowAt xs w i).length := by omega
  have hne : windowAt xs w i ≠ [] := by
    intro h; rw [h] at hpos; simp at hpos
  obtain ⟨c, hc⟩ := Option.isSome_iff_exists.mp (List.getLast?_isSome.mpr hne)
  rw [Option.some_inj]
  by_cases hmp : (windowAt xs w i).length < w / 2
  · rw [if_pos hmp]
    constructor
    · intro _; omega
    · intro _; rfl
  · rw [if_neg hmp]
    rw [calc_pct]
    by_cases hg : 2 * (windowAt xs w i).length < w
    · rw [if_pos hg]
      constructor
      · intro _; omega
      · intro _; rfl
    · rw [if_neg hg, hc]
      simp only []
      constructor
      · intro h; exact absurd h (by simp)
      · intro h; omega

/-- Witness for C3: with series [1,2,3] and W = 5, the output at index 1 is
null (the window holds 2 < ⌈5/2⌉ = 3 observations, caught by the inner guard
since `min_periods` is only 2). -/
theorem percentile_null_iff_below_half_window_witness :
    2 ≤ 5 ∧ 1 < [(1:ℚ), 2, 3].length ∧
    ((rolling_percentile [(1:ℚ), 2, 3] 5)[1]? = some none ↔ min (1 + 1) 5 < (5 + 1) / 2) :=
  ⟨by norm_num, by norm_num,
    percentile_null_iff_below_half_window [(1:ℚ), 2, 3] 5 1 (by norm_num) (by norm_num)⟩

/-! ### Claim C8 — percentile bounds -/

/-- Claim C8: every non-null rolling-percentile output lies in [0, 1]: the
strict-less rank of the window's last value is at most `window_size - 1`
(the last value is not below itself), and a size-1 window is defined as 0.5. -/
theorem percentile_within_unit_interval (xs : List ℚ) (w i : ℕ) (p : ℚ)
    (h : (rolling_percentile xs w)[i]? = some (some p)) :
    0 ≤ p ∧ p ≤ 1 := by
  have hi : i < xs.length := by
    by_contra hge
    rw [List.getElem?_eq_none (by rw [rolling_percentile_length]; omega)] at h
    exact Option.noConfusion h
  rw [rolling_percentile_getElem xs w i hi] at h
  have h2 := Option.some.inj h
  by_cases hmp : (windowAt xs w i).length < w / 2
  · rw [if_pos hmp] at h2; exact Option.noConfusion h2
  · rw [if_neg hmp] at h2
    rw [calc_pct] at h2
    by_cases hg : 2 * (windowAt xs w i).length < w
    · rw [if_pos hg] at h2; exact Option.noConfusion h2
    · rw [if_neg hg] at h2
      cases hlast : (windowAt xs w i).getLast? with
      | none => rw [hlast] at h2; exact Option.noConfusion h2
      | some c =>
          rw [hlast] at h2
          have hp := Option.some.inj h2
          by_cases h1 : 1 < (windowAt xs w i).length
          · rw [if_pos h1] at hp
            have hrank := filter_lt_getLast_length (windowAt xs w i) c hlast
            have hlenq : (2:ℚ) ≤ ((windowAt xs w i).length : ℚ) := by exact_mod_cast h1
            have hdpos : (0:ℚ) < ((windowAt xs w i).length : ℚ) - 1 := by linarith
            constructor
            · rw [← hp]
              exact div_nonneg (by positivity) hdpos.le
            · rw [← hp, div_le_one hdpos]
              have hrq : (((windowAt xs w i).filter (fun v => decide (v < c))).length : ℚ) + 1
                  ≤ ((windowAt xs w i).length : ℚ) := by exact_mod_cast hrank
              linarith
          · rw [if_neg h1] at hp
            rw [← hp]
            norm_num

/-- Witness for C8: series [1,2] with window 2 yields percentile 1 at index 1,
inside [0,1]. -/
theorem percentile_within_unit_interval_witness :
    (rolling_percentile [(1:ℚ), 2] 2)[1]? = some (some 1) ∧ (0:ℚ) ≤ 1 ∧ (1:ℚ) ≤ 1 :=
  ⟨by norm_num [rolling_percentile, windowAt, calc_pct, List.range_succ],
    percentile_within_unit_interval [(1:ℚ), 2] 2 1 1
      (by norm_num [rolling_percentile, windowAt, calc_pct, List.range_succ])⟩

/-! ### Claim C10 — all-tied window scores the extreme low -/

/-- Claim C10: whenever the rolling percentile is defined at a position whose
trailing window has size ≥ 2 and holds only copies of one value (as on the
constant prefix created by the backfill-with-first-valid policy), the
strict-less rank is 0 and the output is exactly 0 — an all-tied history is
scored as the extreme low, not as the 50th percentile. -/
theorem tied_window_percentile_zero (xs : List ℚ) (w i : ℕ) (p : ℚ)
    (h : (rolling_percentile xs w)[i]? = some (some p))
    (hlen2 : 2 ≤ (windowAt xs w i).length)
    (htied : ∀ u ∈ windowAt xs w i, ∀ v ∈ windowAt xs w i, u = v) :
    p = 0 := by
  have hi : i < xs.length := by
    by_contra hge
    rw [List.getElem?_eq_none (by rw [rolling_percentile_length]; omega)] at h
    exact Option.noConfusion h
  rw [rolling_percentile_getElem xs w i hi] at h
  have h2 := Option.some.inj h
  by_cases hmp : (windowAt xs w i).length < w / 2
  · rw [if_pos hmp] at h2; exact Option.noConfusion h2
  · rw [if_neg hmp] at h2
    rw [calc_pct] at h2
    by_cases hg : 2 * (windowAt xs w i).length < w
    · rw [if_pos hg] at h2; exact Option.noConfusion h2
    · rw [if_neg hg] at h2
      have hne : windowAt xs w i ≠ [] := by
        intro he; rw [he] at hlen2; simp at hlen2
      obtain ⟨c, hc⟩ := Option.isSome_iff_exists.mp (List.getLast?_isSome.mpr hne)
      rw [hc] at h2
      have hcmem : c ∈ windowAt xs w i := by
        have hgl := List.getLast?_eq_getLast (windowAt xs w i) hne
        rw [hc] at hgl
        exact (Option.some.inj hgl) ▸ List.getLast_mem hne
      have hfilter : (windowAt xs w i).filter (fun v => decide (v < c)) = [] := by
        rw [List.filter_eq_nil_iff]
        intro a ha
        have : a = c := htied a ha c hcmem
        simp [this]
      have hp := Option.some.inj h2
      rw [if_pos (by omega), hfilter] at hp
      simpa using hp.symm

/-- Witness for C10: series [5,5,5] with window 2 at index 2 — the window
[5,5] is all-tied and the output is 0. -/
theorem tied_window_percentile_zero_witness :
    (rolling_percentile [(5:ℚ), 5, 5] 2)[2]? = some (some 0) ∧ (0:ℚ) = 0 :=
  ⟨by norm_num [rolling_percentile, windowAt, calc_pct, List.range_succ],
    tied_window_percentile_zero [(5:ℚ), 5, 5] 2 2 0
      (by norm_num [rolling_percentile, windowAt, calc_pct, List.range_succ])
      (by norm_num [windowAt])
      (by
        intro u hu v hv
        simp [windowAt] at hu hv
        rw [hu, hv])⟩

/-! ### Claim C1 — execution lag and no look-ahead -/

/-- Claim C1: in every backtest run over a merged price/signal table (the
source requires at least 2 rows), the executed position at the first date is
0, the executed position at each later date `t` equals the raw signal at date
`t-1`, and changing the price column, the market-return column it determines,
or any signal entry at date `t` or later never changes the executed position
at date `t`. -/
theorem executed_position_lag_no_lookahead
    (cfg : BacktestConfig) (price ret : List ℚ) (signal : List ℤ) (t : ℕ)
    (hn : 2 ≤ signal.length) (ht : t < signal.length) :
    (run cfg price ret signal).position[0]? = some 0 ∧
    (1 ≤ t → (run cfg price ret signal).position[t]? = signal[t - 1]?) ∧
    (∀ (price2 ret2 : List ℚ) (signal2 : List ℤ),
        signal2.length = signal.length →
        (∀ s, s < t → signal2[s]? = signal[s]?) →
        (run cfg price2 ret2 signal2).position[t]? = (run cfg price ret signal).position[t]?) := by
  have hne : signal ≠ [] := by
    intro h; rw [h] at hn; simp at hn
  refine ⟨?_, ?_, ?_⟩
  · exact shift_fill0_head signal hne
  · intro h1
    exact shift_fill0_succ signal t h1 ht
  · intro price2 ret2 signal2 hlen2 hagree
    show (shift_fill0 signal2)[t]? = (shift_fill0 signal)[t]?
    rcases Nat.eq_zero_or_pos t with rfl | h1
    · have hne2 : signal2 ≠ [] := by
        intro h; rw [h] at hlen2; simp at hlen2; omega
      rw [shift_fill0_head signal2 hne2, shift_fill0_head signal hne]
    · rw [shift_fill0_succ signal t h1 ht, shift_fill0_succ signal2 t h1 (by omega)]
      exact hagree (t - 1) (by omega)

/-- Witness for C1: a concrete 3-row table; the executed position at date 1
equals the raw signal at date 0, unchanged when price, returns and the later
signals are replaced. -/
theorem executed_position_lag_no_lookahead_witness :
    (run {} [100, 110, 99] [1/10, -1/10] [1, -1, 0]).position[0]? = some 0 ∧
    (run {} [100, 110, 99] [1/10, -1/10] [1, -1, 0]).position[1]? = [(1:ℤ), -1, 0][0]? ∧
    (run {} [200, 50, 1] [2, 3] [1, 1, 1]).position[1]?
      = (run {} [100, 110, 99] [1/10, -1/10] [1, -1, 0]).position[1]? := by
  obtain ⟨h0, h1, h2⟩ :=
    executed_position_lag_no_lookahead {} [100, 110, 99] [1/10, -1/10] [1, -1, 0] 1
      (by norm_num) (by norm_num)
  exact ⟨h0, h1 (by norm_num),
    h2 [200, 50, 1] [2, 3] [1, 1, 1] (by norm_num)
      (by
        intro s hs
        interval_cases s
        rfl)⟩

/-! ### Claim C4 — transaction cost and strategy return formulas -/

/-- Claim C4: at every period `t ≥ 1` of a backtest run, the transaction cost
charged is `|position(t) - position(t-1)| * (commission_rate + slippage_rate)`
and the strategy return is `position(t) * market_return(t)` minus that cost;
a flip from +1 to -1 is therefore charged at magnitude 2, and a single change
from 0 to 1 at the default rates subtracts exactly 0.0015. -/
theorem transaction_cost_and_return_formula
    (cfg : BacktestConfig) (price ret : List ℚ) (signal : List ℤ)
    (t : ℕ) (r : ℚ) (pt ps : ℤ)
    (ht1 : 1 ≤ t) (ht : t < signal.length) (hr : ret.length + 1 = signal.length)
    (hret : ret[t - 1]? = some r)
    (hpt : (run cfg price ret signal).position[t]? = some pt)
    (hps : (run cfg price ret signal).position[t - 1]? = some ps) :
    (run cfg price ret signal).trade_cost[t]?
        = some ((|pt - ps| : ℤ) * (cfg.commission_rate + cfg.slippage_rate)) ∧
    (run cfg price ret signal).strategy_return[t]?
        = some (some ((pt : ℚ) * r
            - (|pt - ps| : ℤ) * (cfg.commission_rate + cfg.slippage_rate))) := by
  have hpt2 : (shift_fill0 signal)[t]? = some pt := hpt
  have hps2 : (shift_fill0 signal)[t - 1]? = some ps := hps
  have hpc : (diff_abs (shift_fill0 signal))[t]? = some |pt - ps| :=
    diff_abs_succ (shift_fill0 signal) t pt ps ht1 hpt2 hps2
  have htc : (run cfg price ret signal).trade_cost[t]?
      = some (((|pt - ps| : ℤ) : ℚ) * (cfg.commission_rate + cfg.slippage_rate)) := by
    show ((diff_abs (shift_fill0 signal)).map
        (fun (c : ℤ) => (c : ℚ) * (cfg.commission_rate + cfg.slippage_rate)))[t]? = _
    rw [List.getElem?_map, hpc]
    rfl
  refine ⟨htc, ?_⟩
  have hmr : ((none : Option ℚ) :: ret.map some)[t]? = some (some r) := by
    obtain ⟨s, rfl⟩ : ∃ s, t = s + 1 := ⟨t - 1, by omega⟩
    rw [List.getElem?_cons_succ, List.getElem?_map]
    simp only [Nat.add_sub_cancel] at hret
    rw [hret]
    rfl
  show (zipWith3 (fun mr (p : ℤ) c => mr.map (fun r => (p : ℚ) * r - c))
      ((none : Option ℚ) :: ret.map some) (shift_fill0 signal)
      ((diff_abs (shift_fill0 signal)).map
        (fun (c : ℤ) => (c : ℚ) * (cfg.commission_rate + cfg.slippage_rate))))[t]? = _
  rw [zipWith3_getElem_of _ _ _ _ t (some r) pt
      (((|pt - ps| : ℤ) : ℚ) * (cfg.commission_rate + cfg.slippage_rate)) hmr hpt2
      (by rw [List.getElem?_map, hpc]; rfl)]
  rfl

/-- Witness for C4: at the default rates, a position change from 0 to 1 costs
exactly 3/2000 = 0.0015, subtracted from the period's strategy return, and a
flip from +1 to -1 is charged 2 * 3/2000. -/
theorem transaction_cost_and_return_formula_witness :
    (run {} [100, 110] [1/10] [1, 1]).trade_cost[1]?
        = some ((|(1:ℤ) - 0| : ℤ) * ((1:ℚ)/1000 + 5/10000)) ∧
    (run {} [100, 110] [1/10] [1, 1]).strategy_return[1]?
        = some (some (((1:ℤ) : ℚ) * (1/10) - (|(1:ℤ) - 0| : ℤ) * ((1:ℚ)/1000 + 5/10000))) ∧
    (run {} [100, 110, 99] [1/10, 1/5] [1, -1, 0]).trade_cost[2]?
        = some ((|(-1:ℤ) - 1| : ℤ) * ((1:ℚ)/1000 + 5/10000)) := by
  obtain ⟨hc1, hr1⟩ :=
    transaction_cost_and_return_formula {} [100, 110] [1/10] [1, 1] 1 (1/10) 1 0
      (by norm_num) (by norm_num) (by norm_num)
      (by norm_num)
      (by norm_num [run, shift_fill0])
      (by norm_num [run, shift_fill0])
  obtain ⟨hc2, _⟩ :=
    transaction_cost_and_return_formula {} [100, 110, 99] [1/10, 1/5] [1, -1, 0] 2 (1/5) (-1) 1
      (by norm_num) (by norm_num) (by norm_num)
      (by norm_num)
      (by norm_num [run, shift_fill0])
      (by norm_num [run, shift_fill0])
  exact ⟨hc1, hr1, hc2⟩

/-! ### Claim C7 — drawdown sign -/

lemma drawdown_core (srf : List ℚ) (t : ℕ) (d : ℚ) (h0 : srf[0]? = some 0)
    (h : (List.zipWith (fun c p => c / p - 1)
        (cumprod1p srf) (cummax (cumprod1p srf)))[t]? = some d) :
    d ≤ 0 ∧ ((cumprod1p srf)[t]? = (cummax (cumprod1p srf))[t]? → d = 0) := by
  obtain ⟨tail, rfl⟩ : ∃ tail, srf = 0 :: tail := by
    cases srf with
    | nil => simp at h0
    | cons a tail =>
        have ha : a = 0 := by simpa using h0
        exact ⟨tail, by rw [ha]⟩
  have hcum : cumprod1p ((0:ℚ) :: tail) = 1 :: cumprodAux 1 tail := by
    simp [cumprod1p, cumprodAux]
  rw [hcum] at h ⊢
  obtain ⟨ct, pt, hct, hpt, hd⟩ := zipWith_getElem_some _ _ _ t d h
  obtain ⟨h1pt, y, hy, hylept⟩ := cummax_spec 1 (cumprodAux 1 tail) t pt hpt
  rw [hct] at hy
  have hctpt : ct ≤ pt := (Option.some.inj hy) ▸ hylept
  have hpt0 : (0:ℚ) < pt := lt_of_lt_of_le one_pos h1pt
  subst hd
  constructor
  · show ct / pt - 1 ≤ 0
    have hdiv : ct / pt ≤ 1 := (div_le_one hpt0).mpr hctpt
    linarith
  · intro heq
    rw [hct, hpt] at heq
    have hctpt2 : ct = pt := Option.some.inj heq
    show ct / pt - 1 = 0
    rw [hctpt2, div_self (ne_of_gt hpt0), sub_self]

/-- Claim C7: for every backtest run and every period `t` at which the
drawdown column `equity / running_max(equity) - 1` is defined, the drawdown is
≤ 0, and it is 0 whenever the strategy equity at `t` equals its running
maximum (a new peak).  The first strategy return is NaN (filled as 0), so the
equity curve starts at 1 and the running peak is always positive. -/
theorem drawdown_nonpositive_zero_at_peak
    (cfg : BacktestConfig) (price ret : List ℚ) (signal : List ℤ) (t : ℕ) (d : ℚ)
    (h : (run cfg price ret signal).drawdown[t]? = some d) :
    d ≤ 0 ∧ ((run cfg price ret signal).cumulative_strategy[t]?
        = (run cfg price ret signal).strategy_peak[t]? → d = 0) := by
  have hne : signal ≠ [] := by
    intro he
    rw [he] at h
    simp [run, shift_fill0, zipWith3, cumprod1p, cumprodAux, cummax] at h
  have h0 : ((run cfg price ret signal).strategy_return.map (fun o => o.getD 0))[0]? = some 0 := by
    cases signal with
    | nil => exact absurd rfl hne
    | cons s0 rest => simp [run, shift_fill0, diff_abs, zipWith3]
  have h2 : (List.zipWith (fun c p => c / p - 1)
      (cumprod1p ((run cfg price ret signal).strategy_return.map (fun (o : Option ℚ) => o.getD 0)))
      (cummax (cumprod1p ((run cfg price ret signal).strategy_return.map
        (fun (o : Option ℚ) => o.getD 0)))))[t]? = some d := h
  have h02 : ((run cfg price ret signal).strategy_return.map
      (fun (o : Option ℚ) => o.getD 0))[0]? = some 0 := h0
  exact drawdown_core ((run cfg price ret signal).strategy_return.map
    (fun (o : Option ℚ) => o.getD 0)) t d h02 h2

/-- Witness for C7 at a concrete two-row backtest whose equity makes a new
peak at period 1, so the drawdown there is exactly 0. -/
theorem drawdown_nonpositive_zero_at_peak_witness :
    (run {} [100, 110] [1/10] [1, 1]).drawdown[1]? = some 0 ∧ (0:ℚ) ≤ 0 :=
  ⟨by norm_num [run, shift_fill0, diff_abs, zipWith3, cumprod1p, cumprodAux, cummax, runmax],
    (drawdown_nonpositive_zero_at_peak {} [100, 110] [1/10] [1, 1] 1 0
      (by norm_num [run, shift_fill0, diff_abs, zipWith3, cumprod1p, cumprodAux,
        cummax, runmax])).1⟩

/-! ### Claim C5 (amended theorem) — the profit-factor formula -/

/-- Claim C5, amended: with fewer than two trade boundaries every trade
statistic (win_rate, profit_factor, avg_trade_return) is defined as 0 rather
than raising on an empty segment list; with at least two boundaries,
profit_factor equals (mean positive segment, or 0 if none) divided by
|mean negative segment| when losing segments exist, and equals the mean
positive segment itself (denominator defaulted to 1) when there are none. -/
theorem profit_factor_formula (pc : List ℤ) (sr : List (Option ℚ)) :
    ((tradeIndices pc).length < 2 → calc_trade_stats pc sr = ⟨0, 0, 0⟩) ∧
    (2 ≤ (tradeIndices pc).length →
      (calc_trade_stats pc sr).profit_factor =
        if (negSegments pc sr).length = 0 then
          (if 0 < (posSegments pc sr).length then meanQ (posSegments pc sr) else 0)
        else
          (if 0 < (posSegments pc sr).length then meanQ (posSegments pc sr) else 0)
            / |meanQ (negSegments pc sr)|) := by
  constructor
  · intro hlt
    unfold calc_trade_stats
    rw [if_pos hlt]
  intro h
  have htrs : (tradeReturns pc sr).length = (tradeIndices pc).length - 1 := by
    simp only [tradeReturns, List.length_map, List.length_zip, List.length_tail]
    omega
  have hne : tradeReturns pc sr ≠ [] := by
    intro he
    rw [he] at htrs
    simp at htrs
    omega
  have hstats : calc_trade_stats pc sr =
      ⟨if 0 < (tradeReturns pc sr).length
          then (((posSegments pc sr).length : ℚ) / ((tradeReturns pc sr).length : ℚ)) else 0,
        if 0 < (if 0 < (negSegments pc sr).length then |meanQ (negSegments pc sr)| else 1)
          then (if 0 < (posSegments pc sr).length then meanQ (posSegments pc sr) else 0)
            / (if 0 < (negSegments pc sr).length then |meanQ (negSegments pc sr)| else 1)
          else 0,
        meanQ (tradeReturns pc sr)⟩ := by
    unfold calc_trade_stats
    rw [if_neg (show ¬(tradeIndices pc).length < 2 by omega), if_neg hne]
  rw [hstats]
  dsimp only
  by_cases hl : 0 < (negSegments pc sr).length
  · have hmean : meanQ (negSegments pc sr) < 0 := by
      have hne2 : negSegments pc sr ≠ [] := by
        intro he; rw [he] at hl; simp at hl
      have hall : ∀ a ∈ negSegments pc sr, a < 0 := by
        intro a ha
        exact of_decide_eq_true (List.mem_filter.mp ha).2
      have hsum := sum_neg_of_all_neg _ hall hne2
      have hlenq : (0:ℚ) < ((negSegments pc sr).length : ℚ) := by exact_mod_cast hl
      exact div_neg_of_neg_of_pos hsum hlenq
    have habs : (0:ℚ) < |meanQ (negSegments pc sr)| := abs_pos.mpr (ne_of_lt hmean)
    rw [if_pos hl, if_pos habs, if_neg (show ¬(negSegments pc sr).length = 0 by omega)]
  · rw [if_neg hl, if_pos (show (0:ℚ) < 1 by norm_num), div_one,
      if_pos (show (negSegments pc sr).length = 0 by omega)]

/-- Witness for the amended C5, exercising both branches: with the single
boundary of [0, 0, 1] the early return yields (0, 0, 0), and with boundaries
at positions 1 and 2 of [0, 1, 1] the single losing segment of mean -1/4
gives profit_factor = 0 / (1/4) = 0. -/
theorem profit_factor_formula_witness :
    (tradeIndices [0, 0, 1]).length < 2 ∧
    calc_trade_stats [0, 0, 1] [none, some (-1/2), some (1/4)] = ⟨0, 0, 0⟩ ∧
    2 ≤ (tradeIndices [0, 1, 1]).length ∧
    (calc_trade_stats [0, 1, 1] [none, some (-1/2), some (1/4)]).profit_factor =
      if (negSegments [0, 1, 1] [none, some (-1/2), some (1/4)]).length = 0 then
        (if 0 < (posSegments [0, 1, 1] [none, some (-1/2), some (1/4)]).length
          then meanQ (posSegments [0, 1, 1] [none, some (-1/2), some (1/4)]) else 0)
      else
        (if 0 < (posSegments [0, 1, 1] [none, some (-1/2), some (1/4)]).length
          then meanQ (posSegments [0, 1, 1] [none, some (-1/2), some (1/4)]) else 0)
          / |meanQ (negSegments [0, 1, 1] [none, some (-1/2), some (1/4)])| :=
  ⟨by norm_num [tradeIndices, List.range_succ],
    (profit_factor_formula [0, 0, 1] [none, some (-1/2), some (1/4)]).1
      (by norm_num [tradeIndices, List.range_succ]),
    by norm_num [tradeIndices, List.range_succ],
    (profit_factor_formula [0, 1, 1] [none, some (-1/2), some (1/4)]).2
      (by norm_num [tradeIndices, List.range_succ])⟩

end CommoditiesQuant
